import Mathlib

/-!
Verification of the QuantNautilus repository: a tick-to-bar resampling and
prior-day-high/low (PDHL) breakout core around a backtest engine.

The repository ships two files: `src/strategies/pdhl.py` (the `PDHLConfig`
configuration type and the `PDHLStrategy` event handlers `on_bar` and
`on_order_filled`, plus the declared trading-state fields) and `src/main.py`
(backtest wiring).  The strategy's breakout core — tick normalization, bar
aggregation, prior-day-level tracking and the breakout signal state machine —
is declared (state fields `pdh`, `pdl`, `pdhl_is_taken`) but its implementation
is missing from the sources, so those components are modelled from the spec;
each such definition carries a doc comment saying so.  The handlers that do
exist (`on_bar`, `on_order_filled`) and the `main.py` configuration wiring are
embedded directly from the source.

Prices are rationals, timestamps are natural numbers (seconds since epoch).
-/

/-- A normalized price observation: `{timestamp, bid, ask}` (spec §3). -/
structure Tick where
  timestamp : Nat
  bid : ℚ
  ask : ℚ
deriving Repr, DecidableEq

/-- Derived mid price `(bid + ask) / 2` (spec §3). -/
def Tick.mid (t : Tick) : ℚ := (t.bid + t.ask) / 2

/-- A fixed-interval OHLCV bar (spec §3).  `open` is a Lean keyword, so the
open price field is named `open_`. -/
structure Bar where
  interval_start : Nat
  interval_end : Nat
  open_ : ℚ
  high : ℚ
  low : ℚ
  close : ℚ
  volume : Nat
deriving Repr, DecidableEq

/-! ## TickNormalizer

Modelled from the spec (§4.1): the repository contains no normalization code
(`main.py` only prints NaN/Inf counts as a diagnostic); the component below
follows the spec's contract `normalize(raw) -> Tick | rejected`. -/

/-- Modelled from the spec: a raw numeric field that may be NaN or infinite
(spec §4.1 input constraints).  Non-finite values are represented symbolically
so that finiteness is decidable. -/
inductive RawNum where
  | nan : RawNum
  | posInf : RawNum
  | negInf : RawNum
  | fin : ℚ → RawNum
deriving Repr, DecidableEq

/-- Whether a raw numeric field is finite. -/
def RawNum.isFinite : RawNum → Bool
  | .fin _ => true
  | _ => false

/-- Modelled from the spec: a raw price observation whose timestamp may be
unparseable (`none`) and whose bid/ask may be non-finite (spec §4.1). -/
structure RawTick where
  timestamp : Option Nat
  bid : RawNum
  ask : RawNum
deriving Repr, DecidableEq

/-- Modelled from the spec: the normalizer owns no persistent state beyond a
last-accepted-timestamp watermark (spec §3 ownership, §4.1 side effect). -/
structure NormalizerState where
  watermark : Option Nat
deriving Repr, DecidableEq

/-- Modelled from the spec: the side-channel report for a rejected tick
(spec §4.1, §7 error kinds). -/
inductive Rejection where
  | malformedTimestamp : Rejection
  | malformedNumber : Rejection
  | crossedQuote : Rejection
  | outOfOrder : Rejection
deriving Repr, DecidableEq

/-- Modelled from the spec: `normalize(raw) -> Tick | rejected` (spec §4.1).
Rejects when the timestamp is unparseable, bid or ask is non-finite,
`bid > ask`, or the timestamp is strictly earlier than the watermark by more
than the tolerance `tol` (default tolerance 0: any earlier timestamp).
On acceptance the watermark advances monotonically. -/
def TickNormalizer.normalize (tol : Nat) (st : NormalizerState) (raw : RawTick) :
    NormalizerState × (Tick ⊕ Rejection) :=
  match raw.timestamp with
  | none => (st, Sum.inr Rejection.malformedTimestamp)
  | some ts =>
    match raw.bid, raw.ask with
    | RawNum.fin b, RawNum.fin a =>
      if a < b then (st, Sum.inr Rejection.crossedQuote)
      else
        match st.watermark with
        | none => ({ watermark := some ts }, Sum.inl ⟨ts, b, a⟩)
        | some w =>
          if ts + tol < w then (st, Sum.inr Rejection.outOfOrder)
          else ({ watermark := some (max w ts) }, Sum.inl ⟨ts, b, a⟩)
    | _, _ => (st, Sum.inr Rejection.malformedNumber)

/-- Modelled from the spec: single-pass streaming normalization of a raw tick
sequence; rejected ticks are dropped and processing continues (spec §4.1, §7). -/
def normalizeAll (tol : Nat) (st : NormalizerState) :
    List RawTick → NormalizerState × List Tick
  | [] => (st, [])
  | r :: rs =>
    let step := TickNormalizer.normalize tol st r
    let rest := normalizeAll tol step.1 rs
    match step.2 with
    | Sum.inl t => (rest.1, t :: rest.2)
    | Sum.inr _ => (rest.1, rest.2)

/-! ## BarAggregator

Modelled from the spec (§4.2): the repository delegates bar construction to an
external wrangler/engine, so the aggregator below follows the spec's contract
`feed(tick) -> Bar | none`, `flush() -> Bar | none` with epoch-aligned buckets
and OHLCV built from the tick's mid price. -/

/-- Modelled from the spec: the in-progress bucket owned by the aggregator
(spec §3 ownership).  `bucket_id = floor(timestamp / interval)`. -/
structure Bucket where
  bucket_id : Nat
  open_ : ℚ
  high : ℚ
  low : ℚ
  close : ℚ
  volume : Nat
deriving Repr, DecidableEq

/-- Epoch-relative bucket id of a timestamp (spec §4.2 boundary alignment). -/
def bucketId (interval ts : Nat) : Nat := ts / interval

/-- Modelled from the spec: the bucket opened by its first tick — `open` is set
only here; high/low/close start at the same mid; volume starts at 1 (spec §4.2). -/
def Bucket.init (bid : Nat) (m : ℚ) : Bucket :=
  ⟨bid, m, m, m, m, 1⟩

/-- Modelled from the spec: folding one more tick's mid into the bucket —
high/low are running extrema, close is always the latest mid, volume counts
ticks (spec §4.2). -/
def Bucket.update (b : Bucket) (m : ℚ) : Bucket :=
  { b with high := max b.high m, low := min b.low m, close := m,
           volume := b.volume + 1 }

/-- The completed bar of a bucket; boundaries are epoch-aligned multiples of
the interval (spec §4.2). -/
def Bucket.toBar (interval : Nat) (b : Bucket) : Bar :=
  { interval_start := b.bucket_id * interval
    interval_end := (b.bucket_id + 1) * interval
    open_ := b.open_
    high := b.high
    low := b.low
    close := b.close
    volume := b.volume }

/-- Modelled from the spec: the aggregator's state — the fixed interval length
and the in-progress bucket, if any (spec §4.2). -/
structure BarAggregator where
  interval : Nat
  current : Option Bucket
deriving Repr, DecidableEq

/-- Modelled from the spec: `feed(tick) -> Bar | none` (spec §4.2).  When the
tick's bucket differs from the in-progress bucket, the in-progress bucket is
closed and returned (only if its volume > 0) and a new bucket is opened for
the incoming tick; bucket ids are compared, not assumed adjacent. -/
def BarAggregator.feed (a : BarAggregator) (t : Tick) :
    BarAggregator × Option Bar :=
  let bid := bucketId a.interval t.timestamp
  match a.current with
  | none => ({ a with current := some (Bucket.init bid t.mid) }, none)
  | some b =>
    if b.bucket_id = bid then
      ({ a with current := some (b.update t.mid) }, none)
    else
      ({ a with current := some (Bucket.init bid t.mid) },
       if 0 < b.volume then some (b.toBar a.interval) else none)

/-- Modelled from the spec: `flush() -> Bar | none` force-closes the
in-progress bucket and returns it if non-empty (spec §4.2). -/
def BarAggregator.flush (a : BarAggregator) : BarAggregator × Option Bar :=
  match a.current with
  | none => (a, none)
  | some b =>
    ({ a with current := none },
     if 0 < b.volume then some (b.toBar a.interval) else none)

/-- Feed a whole tick sequence, collecting the completed bars in order. -/
def feedAll (a : BarAggregator) : List Tick → BarAggregator × List Bar
  | [] => (a, [])
  | t :: ts =>
    let step := a.feed t
    let rest := feedAll step.1 ts
    (rest.1, step.2.toList ++ rest.2)

/-- Run the aggregator over a finite tick sequence from an empty state and
flush at the end (spec §4.2, §5 shutdown). -/
def runAggregator (interval : Nat) (ticks : List Tick) : List Bar :=
  let fed := feedAll ⟨interval, none⟩ ticks
  fed.2 ++ fed.1.flush.2.toList

/-! ## PriorDayLevelTracker and BreakoutSignalEngine

Modelled from the spec (§4.3, §4.4): the strategy source declares the state
fields (`pdh`, `pdl`, `pdhl_is_taken`, `position`) but the tracking and
signal-evaluation code is missing from the sources; the state machine below
follows the spec. -/

/-- The previous session's high/low level (spec §3). -/
structure PriorDayLevel where
  session_date : Nat
  high : ℚ
  low : ℚ
deriving Repr, DecidableEq

/-- Modelled from the spec: the running high/low accumulator for the session
in progress (spec §3 ownership, §4.3). -/
structure SessionAcc where
  session_date : Nat
  high : ℚ
  low : ℚ
deriving Repr, DecidableEq

/-- The breakout engine's per-session state: `Idle` (no level consumed yet
this session) or `LevelTaken` (one breakout already signaled) (spec §4.4). -/
inductive EngineState where
  | Idle : EngineState
  | LevelTaken : EngineState
deriving Repr, DecidableEq

/-- Signal kind (spec §3). -/
inductive SignalKind where
  | LONG : SignalKind
  | SHORT : SignalKind
  | NONE : SignalKind
deriving Repr, DecidableEq

/-- A breakout signal with its trigger price (spec §3). -/
structure BreakoutSignal where
  kind : SignalKind
  trigger_price : ℚ
deriving Repr, DecidableEq

/-- Whether a signal is a real entry signal (non-NONE). -/
def BreakoutSignal.isEntry (sg : BreakoutSignal) : Bool :=
  match sg.kind with
  | SignalKind.NONE => false
  | _ => true

/-- Modelled from the spec: the joint state of the level tracker and the
breakout engine — the published `PriorDayLevel` (absent before the first
rollover), the session accumulator, the per-session engine state (the
`pdhl_is_taken` flag), and whether a position is open (spec §3, §4.3, §4.4). -/
structure CoreState where
  level : Option PriorDayLevel
  acc : Option SessionAcc
  engine : EngineState
  position_open : Bool
deriving Repr, DecidableEq

/-- Session id of a timestamp: sessions are fixed-length windows with a daily
cutoff (`sessionLen` = 86400 for UTC midnight; configurable) (spec §4.3). -/
def sessionOf (sessionLen ts : Nat) : Nat := ts / sessionLen

/-- Modelled from the spec: `observe(bar)` of the PriorDayLevelTracker
(spec §4.3).  Within the current session it accumulates running high/low; on
the first bar of a new session it atomically (a) publishes the completed
session's high/low as the new `PriorDayLevel`, (b) resets the accumulator from
the current bar, and (c) clears the engine's "level already taken" flag. -/
def observe (sessionLen : Nat) (st : CoreState) (bar : Bar) : CoreState :=
  let s := sessionOf sessionLen bar.interval_start
  match st.acc with
  | none => { st with acc := some ⟨s, bar.high, bar.low⟩ }
  | some a =>
    if a.session_date = s then
      { st with acc := some ⟨s, max a.high bar.high, min a.low bar.low⟩ }
    else
      { st with
          level := some ⟨a.session_date, a.high, a.low⟩
          acc := some ⟨s, bar.high, bar.low⟩
          engine := EngineState.Idle }

/-- Modelled from the spec: `evaluate(bar, level) -> BreakoutSignal`
(spec §4.4).  NONE when the state is `LevelTaken`, a position is open, or no
level exists; LONG at `bar.close` when `bar.close > level.high`; SHORT at
`bar.close` when `bar.close < level.low`; otherwise NONE with no transition. -/
def evaluate (st : CoreState) (bar : Bar) : CoreState × BreakoutSignal :=
  match st.level with
  | none => (st, ⟨SignalKind.NONE, bar.close⟩)
  | some lv =>
    if st.engine = EngineState.LevelTaken ∨ st.position_open = true then
      (st, ⟨SignalKind.NONE, bar.close⟩)
    else if lv.high < bar.close then
      ({ st with engine := EngineState.LevelTaken },
       ⟨SignalKind.LONG, bar.close⟩)
    else if bar.close < lv.low then
      ({ st with engine := EngineState.LevelTaken },
       ⟨SignalKind.SHORT, bar.close⟩)
    else
      (st, ⟨SignalKind.NONE, bar.close⟩)

/-- Modelled from the spec: processing one bar — the tracker's `observe` runs
first (the rollover is a single transition) and only then does the engine
evaluate the bar, so no evaluation sees a partially rolled-over state
(spec §4.3, §5 event ordering). -/
def onBarStep (sessionLen : Nat) (st : CoreState) (bar : Bar) :
    CoreState × BreakoutSignal :=
  evaluate (observe sessionLen st bar) bar

/-- Process a bar sequence, collecting the emitted signals in order. -/
def runBars (sessionLen : Nat) (st : CoreState) :
    List Bar → CoreState × List BreakoutSignal
  | [] => (st, [])
  | b :: bs =>
    let step := onBarStep sessionLen st b
    let rest := runBars sessionLen step.1 bs
    (rest.1, step.2 :: rest.2)

/-! ## Shutdown driver

Modelled from the spec (§5): on shutdown `flush()` is called on the
aggregator and any signal the flushed bar produces is routed through the
usual evaluate path before resources are released. -/

/-- Modelled from the spec: the driver-visible system state — the aggregator
and the tracker/engine core (spec §2, §5). -/
structure SystemState where
  agg : BarAggregator
  core : CoreState
deriving Repr, DecidableEq

/-- Modelled from the spec: the shutdown sequence — flush the aggregator, and
if a trailing bucket is emitted, route its bar through the usual
observe/evaluate path; the emitted signals are returned (spec §5). -/
def shutdown (sessionLen : Nat) (sys : SystemState) :
    SystemState × List BreakoutSignal :=
  let flushed := sys.agg.flush
  match flushed.2 with
  | none => ({ sys with agg := flushed.1 }, [])
  | some bar =>
    let step := onBarStep sessionLen sys.core bar
    ({ agg := flushed.1, core := step.1 }, [step.2])

/-! ## PDHLStrategy event handlers (embedded from `src/strategies/pdhl.py`) -/

/-- A cached position, exposing its average open price
(`position.avg_px_open` in `on_order_filled`). -/
structure CachedPosition where
  avg_px_open : ℚ
deriving Repr, DecidableEq

/-- The strategy's mutable trading-state fields, as declared in
`PDHLStrategy.__init__` (`src/strategies/pdhl.py` lines 23-28). -/
structure StrategyState where
  position : Option CachedPosition
  entry_price : Option ℚ
  pdh : Option ℚ
  pdl : Option ℚ
  pdhl_is_taken : Bool
deriving Repr, DecidableEq

/-- A framework bar as seen by `on_bar`: its bar type, instrument id and
OHLC values (the fields the handler reads). -/
structure NautilusBar where
  bar_type : String
  instrument_id : String
  open_ : ℚ
  high : ℚ
  low : ℚ
  close : ℚ
deriving Repr, DecidableEq

/-- The log lines `on_bar` can produce, one constructor per `log.info` call
site in the source. -/
inductive LogMsg where
  | receivedBar : String → String → LogMsg
  | barValues : ℚ → ℚ → ℚ → ℚ → LogMsg
deriving Repr, DecidableEq

/-- An order request; `on_bar` never constructs one. -/
structure OrderRequest where
  side : SignalKind
  quantity : ℚ
deriving Repr, DecidableEq

/-- `PDHLStrategy.on_bar` (`src/strategies/pdhl.py` lines 41-48): logs the
received bar; if the bar's instrument differs from the configured one it
returns immediately; otherwise it logs the OHLC values.  It neither mutates
the trading-state fields nor submits an order. -/
def on_bar (st : StrategyState) (self_instrument_id : String)
    (bar : NautilusBar) : StrategyState × List LogMsg × List OrderRequest :=
  let log1 := LogMsg.receivedBar bar.bar_type bar.instrument_id
  if bar.instrument_id ≠ self_instrument_id then
    (st, [log1], [])
  else
    (st, [log1, LogMsg.barValues bar.open_ bar.high bar.low bar.close], [])

/-- A fill event as consumed by `on_order_filled`: only the client order id
is read. -/
structure OrderFilled where
  client_order_id : Nat
deriving Repr, DecidableEq

/-- `PDHLStrategy.on_order_filled` (`src/strategies/pdhl.py` lines 50-55):
sets `self.position` from `cache.position_for_order(client_order_id)`; when a
position resolves, sets `entry_price` to that position's `avg_px_open`. -/
def on_order_filled (position_for_order : Nat → Option CachedPosition)
    (st : StrategyState) (filled_order : OrderFilled) : StrategyState :=
  let pos := position_for_order filled_order.client_order_id
  match pos with
  | some p => { st with position := some p, entry_price := some p.avg_px_open }
  | none => { st with position := none }

/-! ## `main.py` configuration wiring (embedded from `src/main.py`)

`PDHLConfig` declares exactly the fields `instrument_id` and
`risk_per_trade` (`src/strategies/pdhl.py` lines 8-10), both without
defaults; `main.py` lines 135-139 constructs it with the keyword arguments
`instrument_id`, `bar_type` and `trade_size`.  The construction is embedded
at the level of field names: it succeeds exactly when the provided keyword
arguments match the declared fields. -/

/-- The fields declared by `PDHLConfig` (`src/strategies/pdhl.py` lines 8-10). -/
def PDHLConfigFields : List String := ["instrument_id", "risk_per_trade"]

/-- The keyword arguments `main.py` passes to `PDHLConfig`
(`src/main.py` lines 135-139). -/
def mainPDHLConfigKwargs : List String := ["instrument_id", "bar_type", "trade_size"]

/-- Whether constructing `PDHLConfig` with the given keyword arguments
succeeds: every argument must be a declared field (unknown keyword arguments
are rejected) and every declared field must be supplied (neither field has a
default). -/
def constructPDHLConfig (kwargs : List String) : Bool :=
  kwargs.all (fun k => PDHLConfigFields.contains k) &&
  PDHLConfigFields.all (fun f => kwargs.contains f)

/-- The steps of `main.py`'s top-level script, in source order
(`src/main.py` lines 28-153). -/
inductive MainStep where
  | configureEngine : MainStep
  | addVenue : MainStep
  | addInstrument : MainStep
  | downloadData : MainStep
  | loadCsv : MainStep
  | wrangleTicks : MainStep
  | addData : MainStep
  | constructConfig : MainStep
  | constructStrategy : MainStep
  | addStrategy : MainStep
  | runBacktest : MainStep
  | generateReports : MainStep
  | disposeEngine : MainStep
deriving Repr, DecidableEq

/-- `main.py`'s steps in execution order. -/
def mainProgram : List MainStep :=
  [MainStep.configureEngine, MainStep.addVenue, MainStep.addInstrument,
   MainStep.downloadData, MainStep.loadCsv, MainStep.wrangleTicks,
   MainStep.addData, MainStep.constructConfig, MainStep.constructStrategy,
   MainStep.addStrategy, MainStep.runBacktest, MainStep.generateReports,
   MainStep.disposeEngine]

/-- Whether a step of `main.py` raises.  Only the `PDHLConfig` construction
can fail at the configuration level embedded here. -/
def stepFails : MainStep → Bool
  | MainStep.constructConfig => !(constructPDHLConfig mainPDHLConfigKwargs)
  | _ => false

/-- Run a step list in order, stopping at (and including) the first step
that raises. -/
def runSteps : List MainStep → List MainStep
  | [] => []
  | s :: rest => if stepFails s then [s] else s :: runSteps rest

/-- The steps `main.py` actually executes before terminating. -/
def mainExecutedSteps : List MainStep := runSteps mainProgram

/-! ## Theorems -/

/-- C1: For every bar evaluated while the engine is Idle, no position is open,
and a prior-day level is present (a well-formed level has `low ≤ high`,
spec §4.4 tie-break): if `bar.close > level.high` then `evaluate` returns LONG
at `bar.close` and transitions to `LevelTaken`; if `bar.close < level.low` it
returns SHORT at `bar.close` and transitions to `LevelTaken`; otherwise it
returns NONE with no transition. -/
theorem evaluate_breakout_signals (st : CoreState) (lv : PriorDayLevel) (bar : Bar)
    (hIdle : st.engine = EngineState.Idle) (hpos : st.position_open = false)
    (hlv : st.level = some lv) (hwf : lv.low ≤ lv.high) :
    (lv.high < bar.close →
      evaluate st bar =
        ({ st with engine := EngineState.LevelTaken },
         ⟨SignalKind.LONG, bar.close⟩)) ∧
    (bar.close < lv.low →
      evaluate st bar =
        ({ st with engine := EngineState.LevelTaken },
         ⟨SignalKind.SHORT, bar.close⟩)) ∧
    (¬ lv.high < bar.close → ¬ bar.close < lv.low →
      evaluate st bar = (st, ⟨SignalKind.NONE, bar.close⟩)) := by
  refine ⟨?_, ?_, ?_⟩
  · intro h
    simp [evaluate, hlv, hIdle, hpos, h]
  · intro h
    have hnl : ¬ lv.high < bar.close :=
      not_lt.mpr (le_of_lt (lt_of_lt_of_le h hwf))
    simp [evaluate, hlv, hIdle, hpos, hnl, h]
  · intro h1 h2
    simp [evaluate, hlv, hIdle, hpos, h1, h2]

/-- C1 witness: a concrete Idle state with level `{high 105, low 100}` and a
bar closing at 106 yields LONG at 106 with a transition to `LevelTaken`. -/
theorem evaluate_breakout_signals_witness :
    (⟨some ⟨0, 105, 100⟩, some ⟨1, 101, 101⟩, EngineState.Idle, false⟩ :
        CoreState).engine = EngineState.Idle ∧
    (⟨some ⟨0, 105, 100⟩, some ⟨1, 101, 101⟩, EngineState.Idle, false⟩ :
        CoreState).position_open = false ∧
    (⟨some ⟨0, 105, 100⟩, some ⟨1, 101, 101⟩, EngineState.Idle, false⟩ :
        CoreState).level = some ⟨0, 105, 100⟩ ∧
    (100 : ℚ) ≤ 105 ∧
    ((105 : ℚ) < 106 →
      evaluate
          ⟨some ⟨0, 105, 100⟩, some ⟨1, 101, 101⟩, EngineState.Idle, false⟩
          ⟨86400, 87300, 103, 106, 102, 106, 7⟩ =
        (⟨some ⟨0, 105, 100⟩, some ⟨1, 101, 101⟩, EngineState.LevelTaken, false⟩,
         ⟨SignalKind.LONG, 106⟩)) := by
  refine ⟨rfl, rfl, rfl, by norm_num, ?_⟩
  intro h
  exact (evaluate_breakout_signals _ ⟨0, 105, 100⟩ _ rfl rfl rfl
    (by norm_num)).1 h

/-- C2: On the first bar whose `interval_start` falls in a new session, the
tracker publishes the completed session's accumulated high/low as the new
`PriorDayLevel`, resets the accumulator from the current bar's own values, and
clears the engine's "level taken" flag — all in the single `observe`
transition; the bar's evaluation in `onBarStep` sees exactly the fully
rolled-over state, never a partial one. -/
theorem rollover_atomic_ordered (sessionLen : Nat) (st : CoreState)
    (a : SessionAcc) (bar : Bar) (hacc : st.acc = some a)
    (hnew : sessionOf sessionLen bar.interval_start ≠ a.session_date) :
    (observe sessionLen st bar).level = some ⟨a.session_date, a.high, a.low⟩ ∧
    (observe sessionLen st bar).acc =
      some ⟨sessionOf sessionLen bar.interval_start, bar.high, bar.low⟩ ∧
    (observe sessionLen st bar).engine = EngineState.Idle ∧
    onBarStep sessionLen st bar = evaluate (observe sessionLen st bar) bar := by
  have hne : a.session_date ≠ sessionOf sessionLen bar.interval_start :=
    fun h => hnew h.symm
  refine ⟨?_, ?_, ?_, rfl⟩ <;> simp [observe, hacc, hne]

/-- C2 witness: a state accumulated in session 0 (`high 112, low 111.5`)
rolled over by the first bar of session 1 publishes the level, restarts the
accumulator from that bar, and clears the flag. -/
theorem rollover_atomic_ordered_witness :
    (⟨none, some ⟨0, 112, 111.5⟩, EngineState.LevelTaken, false⟩ :
        CoreState).acc = some ⟨0, 112, 111.5⟩ ∧
    sessionOf 86400 (⟨86400, 87300, 103, 104, 102, 103, 5⟩ : Bar).interval_start ≠
      (0 : Nat) ∧
    ((observe 86400
        ⟨none, some ⟨0, 112, 111.5⟩, EngineState.LevelTaken, false⟩
        ⟨86400, 87300, 103, 104, 102, 103, 5⟩).level =
      some ⟨0, 112, 111.5⟩ ∧
    (observe 86400
        ⟨none, some ⟨0, 112, 111.5⟩, EngineState.LevelTaken, false⟩
        ⟨86400, 87300, 103, 104, 102, 103, 5⟩).acc =
      some ⟨sessionOf 86400 86400, 104, 102⟩ ∧
    (observe 86400
        ⟨none, some ⟨0, 112, 111.5⟩, EngineState.LevelTaken, false⟩
        ⟨86400, 87300, 103, 104, 102, 103, 5⟩).engine = EngineState.Idle ∧
    onBarStep 86400
        ⟨none, some ⟨0, 112, 111.5⟩, EngineState.LevelTaken, false⟩
        ⟨86400, 87300, 103, 104, 102, 103, 5⟩ =
      evaluate
        (observe 86400
          ⟨none, some ⟨0, 112, 111.5⟩, EngineState.LevelTaken, false⟩
          ⟨86400, 87300, 103, 104, 102, 103, 5⟩)
        ⟨86400, 87300, 103, 104, 102, 103, 5⟩) := by
  refine ⟨rfl, by decide, ?_⟩
  exact rollover_atomic_ordered 86400 _ ⟨0, 112, 111.5⟩ _ rfl (by decide)

/-- C4: `on_bar` mutates none of the strategy's trading-state fields and
submits no order; when the bar's instrument differs from the configured one,
the handler returns immediately after the first log line. -/
theorem on_bar_frame (st : StrategyState) (iid : String) (bar : NautilusBar) :
    (on_bar st iid bar).1 = st ∧
    (on_bar st iid bar).2.2 = [] ∧
    (bar.instrument_id ≠ iid →
      (on_bar st iid bar).2.1 =
        [LogMsg.receivedBar bar.bar_type bar.instrument_id]) := by
  by_cases h : bar.instrument_id = iid <;> simp [on_bar, h]

/-- C4 witness: a concrete bar for a foreign instrument leaves the state
untouched, submits nothing, and produces exactly the first log line. -/
theorem on_bar_frame_witness :
    (on_bar ⟨none, none, none, none, false⟩ "EUR/USD.exness"
        ⟨"GBP/USD.exness-15-MINUTE-BID-EXTERNAL", "GBP/USD.exness",
         1, 2, 1, 2⟩).1 = ⟨none, none, none, none, false⟩ ∧
    (on_bar ⟨none, none, none, none, false⟩ "EUR/USD.exness"
        ⟨"GBP/USD.exness-15-MINUTE-BID-EXTERNAL", "GBP/USD.exness",
         1, 2, 1, 2⟩).2.2 = [] ∧
    ("GBP/USD.exness" ≠ "EUR/USD.exness" →
      (on_bar ⟨none, none, none, none, false⟩ "EUR/USD.exness"
          ⟨"GBP/USD.exness-15-MINUTE-BID-EXTERNAL", "GBP/USD.exness",
           1, 2, 1, 2⟩).2.1 =
        [LogMsg.receivedBar "GBP/USD.exness-15-MINUTE-BID-EXTERNAL"
          "GBP/USD.exness"]) :=
  on_bar_frame ⟨none, none, none, none, false⟩ "EUR/USD.exness"
    ⟨"GBP/USD.exness-15-MINUTE-BID-EXTERNAL", "GBP/USD.exness", 1, 2, 1, 2⟩

/-- C5: `PDHLConfig` declares exactly `instrument_id` and `risk_per_trade`,
but `main.py` constructs it with `instrument_id`, `bar_type`, `trade_size`
and without `risk_per_trade`; the construction fails, `main.py` halts at the
config-construction step, and the backtest never runs. -/
theorem main_config_mismatch :
    "risk_per_trade" ∈ PDHLConfigFields ∧
    "risk_per_trade" ∉ mainPDHLConfigKwargs ∧
    "bar_type" ∈ mainPDHLConfigKwargs ∧
    "bar_type" ∉ PDHLConfigFields ∧
    constructPDHLConfig mainPDHLConfigKwargs = false ∧
    mainExecutedSteps.getLast? = some MainStep.constructConfig ∧
    MainStep.runBacktest ∉ mainExecutedSteps := by
  decide

/-- C9: `on_order_filled` sets `position` from the cache lookup by the filled
order's client order id, and when a position resolves, assigns `entry_price`
that position's `avg_px_open`. -/
theorem on_order_filled_sets_entry
    (position_for_order : Nat → Option CachedPosition) (st : StrategyState)
    (fo : OrderFilled) (p : CachedPosition)
    (h : position_for_order fo.client_order_id = some p) :
    (on_order_filled position_for_order st fo).position = some p ∧
    (on_order_filled position_for_order st fo).entry_price =
      some p.avg_px_open := by
  simp [on_order_filled, h]

/-- C9 witness: a cache resolving order id 7 to a position opened at 1.105
makes the handler store entry price 1.105. -/
theorem on_order_filled_sets_entry_witness :
    ((fun i => if i = 7 then some (⟨1.105⟩ : CachedPosition) else none) 7 =
      some ⟨1.105⟩) ∧
    ((on_order_filled
        (fun i => if i = 7 then some (⟨1.105⟩ : CachedPosition) else none)
        ⟨none, none, none, none, false⟩ ⟨7⟩).position = some ⟨1.105⟩ ∧
    (on_order_filled
        (fun i => if i = 7 then some (⟨1.105⟩ : CachedPosition) else none)
        ⟨none, none, none, none, false⟩ ⟨7⟩).entry_price = some 1.105) :=
  ⟨rfl,
   on_order_filled_sets_entry _ ⟨none, none, none, none, false⟩ ⟨7⟩ ⟨1.105⟩
     rfl⟩

/-- C10: when the aggregator holds a non-empty trailing bucket, `shutdown`
flushes it into a bar and routes that bar through the usual
`observe`/`evaluate` path, emitting exactly the signal that bar produces. -/
theorem shutdown_flush_routes (sessionLen : Nat) (sys : SystemState)
    (b : Bucket) (hcur : sys.agg.current = some b) (hvol : 0 < b.volume) :
    sys.agg.flush.2 = some (b.toBar sys.agg.interval) ∧
    shutdown sessionLen sys =
      ({ agg := sys.agg.flush.1
         core := (onBarStep sessionLen sys.core (b.toBar sys.agg.interval)).1 },
       [(onBarStep sessionLen sys.core (b.toBar sys.agg.interval)).2]) := by
  have h1 : sys.agg.flush.2 = some (b.toBar sys.agg.interval) := by
    simp [BarAggregator.flush, hcur, hvol]
  refine ⟨h1, ?_⟩
  simp only [shutdown, h1]

/-- C10 witness: a trailing bucket with one tick (all prices 2) is flushed at
shutdown into its bar and routed through the evaluate path. -/
theorem shutdown_flush_routes_witness :
    (⟨⟨900, some ⟨3, 2, 2, 2, 2, 1⟩⟩,
        ⟨some ⟨0, 5, 1⟩, some ⟨0, 2, 2⟩, EngineState.Idle, false⟩⟩ :
      SystemState).agg.current = some ⟨3, 2, 2, 2, 2, 1⟩ ∧
    0 < (⟨3, 2, 2, 2, 2, 1⟩ : Bucket).volume ∧
    ((⟨⟨900, some ⟨3, 2, 2, 2, 2, 1⟩⟩,
        ⟨some ⟨0, 5, 1⟩, some ⟨0, 2, 2⟩, EngineState.Idle, false⟩⟩ :
      SystemState).agg.flush.2 =
        some ((⟨3, 2, 2, 2, 2, 1⟩ : Bucket).toBar 900) ∧
    shutdown 86400
        ⟨⟨900, some ⟨3, 2, 2, 2, 2, 1⟩⟩,
         ⟨some ⟨0, 5, 1⟩, some ⟨0, 2, 2⟩, EngineState.Idle, false⟩⟩ =
      ({ agg := (⟨⟨900, some ⟨3, 2, 2, 2, 2, 1⟩⟩,
            ⟨some ⟨0, 5, 1⟩, some ⟨0, 2, 2⟩, EngineState.Idle, false⟩⟩ :
          SystemState).agg.flush.1
         core := (onBarStep 86400
            ⟨some ⟨0, 5, 1⟩, some ⟨0, 2, 2⟩, EngineState.Idle, false⟩
            ((⟨3, 2, 2, 2, 2, 1⟩ : Bucket).toBar 900)).1 },
       [(onBarStep 86400
            ⟨some ⟨0, 5, 1⟩, some ⟨0, 2, 2⟩, EngineState.Idle, false⟩
            ((⟨3, 2, 2, 2, 2, 1⟩ : Bucket).toBar 900)).2])) :=
  ⟨rfl, by decide,
   shutdown_flush_routes 86400
     ⟨⟨900, some ⟨3, 2, 2, 2, 2, 1⟩⟩,
      ⟨some ⟨0, 5, 1⟩, some ⟨0, 2, 2⟩, EngineState.Idle, false⟩⟩
     ⟨3, 2, 2, 2, 2, 1⟩ rfl (by decide)⟩

/-- The rejection conditions of claim C7 on a raw tick, relative to the
normalizer's watermark state: unparseable timestamp, non-finite bid or ask,
bid strictly greater than ask, or a timestamp regressing beyond the
tolerance. -/
def badRaw (tol : Nat) (st : NormalizerState) (r : RawTick) : Prop :=
  r.timestamp = none ∨
  r.bid.isFinite = false ∨
  r.ask.isFinite = false ∨
  (∃ b a, r.bid = RawNum.fin b ∧ r.ask = RawNum.fin a ∧ a < b) ∨
  (∃ ts w, r.timestamp = some ts ∧ st.watermark = some w ∧ ts + tol < w)

/-- C7: every raw tick satisfying one of the rejection conditions is rejected
by `normalize` as a side-channel report (never an exception value), the
normalizer state is unchanged, and processing of subsequent ticks continues
exactly as if the bad tick had not occurred. -/
theorem normalize_rejects_bad_ticks (tol : Nat) (st : NormalizerState)
    (r : RawTick) (hbad : badRaw tol st r) :
    (∃ rej, TickNormalizer.normalize tol st r = (st, Sum.inr rej)) ∧
    (∀ rs, normalizeAll tol st (r :: rs) = normalizeAll tol st rs) := by
  obtain ⟨rts, rbid, rask⟩ := r
  have key : ∃ rej, TickNormalizer.normalize tol st ⟨rts, rbid, rask⟩ =
      (st, Sum.inr rej) := by
    rcases hbad with hts | hb | ha | ⟨b, a, hb, ha, hlt⟩ | ⟨ts, w, hts, hw, hlt⟩
    · simp only at hts
      subst hts
      exact ⟨Rejection.malformedTimestamp, rfl⟩
    · cases rts with
      | none => exact ⟨Rejection.malformedTimestamp, rfl⟩
      | some ts =>
        cases rbid with
        | fin q => simp [RawNum.isFinite] at hb
        | nan => cases rask <;> exact ⟨Rejection.malformedNumber, rfl⟩
        | posInf => cases rask <;> exact ⟨Rejection.malformedNumber, rfl⟩
        | negInf => cases rask <;> exact ⟨Rejection.malformedNumber, rfl⟩
    · cases rts with
      | none => exact ⟨Rejection.malformedTimestamp, rfl⟩
      | some ts =>
        cases rask with
        | fin q => simp [RawNum.isFinite] at ha
        | nan => cases rbid <;> exact ⟨Rejection.malformedNumber, rfl⟩
        | posInf => cases rbid <;> exact ⟨Rejection.malformedNumber, rfl⟩
        | negInf => cases rbid <;> exact ⟨Rejection.malformedNumber, rfl⟩
    · simp only at hb ha
      subst hb
      subst ha
      cases rts with
      | none => exact ⟨Rejection.malformedTimestamp, rfl⟩
      | some ts =>
        exact ⟨Rejection.crossedQuote,
          by simp [TickNormalizer.normalize, hlt]⟩
    · simp only at hts
      subst hts
      cases rbid with
      | fin b =>
        cases rask with
        | fin a =>
          by_cases hab : a < b
          · exact ⟨Rejection.crossedQuote,
              by simp [TickNormalizer.normalize, hab]⟩
          · exact ⟨Rejection.outOfOrder,
              by simp [TickNormalizer.normalize, hab, hw, hlt]⟩
        | nan => exact ⟨Rejection.malformedNumber, rfl⟩
        | posInf => exact ⟨Rejection.malformedNumber, rfl⟩
        | negInf => exact ⟨Rejection.malformedNumber, rfl⟩
      | nan => cases rask <;> exact ⟨Rejection.malformedNumber, rfl⟩
      | posInf => cases rask <;> exact ⟨Rejection.malformedNumber, rfl⟩
      | negInf => cases rask <;> exact ⟨Rejection.malformedNumber, rfl⟩
  obtain ⟨rej, hkey⟩ := key
  refine ⟨⟨rej, hkey⟩, ?_⟩
  intro rs
  simp [normalizeAll, hkey]

/-- C7 witness: a crossed quote (bid 3 > ask 2) at timestamp 50 is rejected
and the remaining stream is processed as if it had not occurred. -/
theorem normalize_rejects_bad_ticks_witness :
    badRaw 0 ⟨some 40⟩ ⟨some 50, RawNum.fin 3, RawNum.fin 2⟩ ∧
    ((∃ rej, TickNormalizer.normalize 0 ⟨some 40⟩
        ⟨some 50, RawNum.fin 3, RawNum.fin 2⟩ = (⟨some 40⟩, Sum.inr rej)) ∧
    (∀ rs, normalizeAll 0 ⟨some 40⟩
        (⟨some 50, RawNum.fin 3, RawNum.fin 2⟩ :: rs) =
      normalizeAll 0 ⟨some 40⟩ rs)) :=
  ⟨Or.inr (Or.inr (Or.inr (Or.inl ⟨3, 2, rfl, rfl, by norm_num⟩))),
   normalize_rejects_bad_ticks 0 ⟨some 40⟩ ⟨some 50, RawNum.fin 3, RawNum.fin 2⟩
     (Or.inr (Or.inr (Or.inr (Or.inl ⟨3, 2, rfl, rfl, by norm_num⟩))))⟩

/-- The invariant of an in-progress bucket: low below open and close, high
above open and close, and at least one tick counted. -/
def BucketInv (b : Bucket) : Prop :=
  b.low ≤ b.open_ ∧ b.low ≤ b.close ∧ b.open_ ≤ b.high ∧ b.close ≤ b.high ∧
  1 ≤ b.volume

/-- The bar invariant of claim C8. -/
def BarInv (bar : Bar) : Prop :=
  bar.low ≤ min bar.open_ bar.close ∧ max bar.open_ bar.close ≤ bar.high ∧
  1 ≤ bar.volume

/-- The aggregator invariant: any in-progress bucket satisfies `BucketInv`. -/
def AggInv (a : BarAggregator) : Prop :=
  ∀ b, a.current = some b → BucketInv b

theorem bucketInv_init (k : Nat) (m : ℚ) : BucketInv (Bucket.init k m) :=
  ⟨le_refl m, le_refl m, le_refl m, le_refl m, le_refl 1⟩

theorem bucketInv_update (b : Bucket) (m : ℚ) (h : BucketInv b) :
    BucketInv (b.update m) := by
  obtain ⟨h1, h2, h3, h4, h5⟩ := h
  exact ⟨le_trans (min_le_left _ _) h1, min_le_right _ _,
         le_trans h3 (le_max_left _ _), le_max_right _ _,
         Nat.le_succ_of_le h5⟩

theorem barInv_toBar (interval : Nat) (b : Bucket) (h : BucketInv b) :
    BarInv (b.toBar interval) :=
  ⟨le_min h.1 h.2.1, max_le h.2.2.1 h.2.2.2.1, h.2.2.2.2⟩

theorem feed_inv (a : BarAggregator) (t : Tick) (h : AggInv a) :
    AggInv (a.feed t).1 ∧ ∀ bar, (a.feed t).2 = some bar → BarInv bar := by
  cases hc : a.current with
  | none =>
    refine ⟨?_, ?_⟩
    · intro b hb
      simp [BarAggregator.feed, hc] at hb
      rw [← hb]
      exact bucketInv_init _ _
    · intro bar hbar
      simp [BarAggregator.feed, hc] at hbar
  | some b0 =>
    have hb0 : BucketInv b0 := h b0 hc
    by_cases hid : b0.bucket_id = bucketId a.interval t.timestamp
    · refine ⟨?_, ?_⟩
      · intro b hb
        simp [BarAggregator.feed, hc, hid] at hb
        rw [← hb]
        exact bucketInv_update _ _ hb0
      · intro bar hbar
        simp [BarAggregator.feed, hc, hid] at hbar
    · have hv : 0 < b0.volume := lt_of_lt_of_le Nat.zero_lt_one hb0.2.2.2.2
      refine ⟨?_, ?_⟩
      · intro b hb
        simp [BarAggregator.feed, hc, hid] at hb
        rw [← hb]
        exact bucketInv_init _ _
      · intro bar hbar
        simp [BarAggregator.feed, hc, hid, hv] at hbar
        rw [← hbar]
        exact barInv_toBar _ _ hb0

theorem flush_inv (a : BarAggregator) (h : AggInv a) :
    ∀ bar, a.flush.2 = some bar → BarInv bar := by
  intro bar hbar
  cases hc : a.current with
  | none => simp [BarAggregator.flush, hc] at hbar
  | some b0 =>
    have hb0 : BucketInv b0 := h b0 hc
    have hv : 0 < b0.volume := lt_of_lt_of_le Nat.zero_lt_one hb0.2.2.2.2
    simp [BarAggregator.flush, hc, hv] at hbar
    rw [← hbar]
    exact barInv_toBar _ _ hb0

theorem feedAll_inv (ts : List Tick) (a : BarAggregator) (h : AggInv a) :
    AggInv (feedAll a ts).1 ∧ ∀ bar ∈ (feedAll a ts).2, BarInv bar := by
  induction ts generalizing a with
  | nil =>
    refine ⟨h, ?_⟩
    intro bar hbar
    simp [feedAll] at hbar
  | cons t ts ih =>
    obtain ⟨h1, h2⟩ := feed_inv a t h
    obtain ⟨h3, h4⟩ := ih (a.feed t).1 h1
    refine ⟨h3, ?_⟩
    intro bar hbar
    simp only [feedAll, List.mem_append] at hbar
    rcases hbar with hbar | hbar
    · rcases ho : (a.feed t).2 with _ | b2
      · rw [ho] at hbar
        simp at hbar
      · rw [ho] at hbar
        simp at hbar
        rw [hbar]
        exact h2 b2 ho
    · exact h4 bar hbar

/-- C8: every bar emitted by running the aggregator over any finite tick
sequence (including the final flush) satisfies
`low ≤ min(open, close) ≤ max(open, close) ≤ high` and `volume ≥ 1`; since a
bucket is only ever opened by a tick and its volume counts exactly the ticks
folded into it, no bar is materialized for an interval containing zero ticks. -/
theorem aggregator_bar_invariants (interval : Nat) (ticks : List Tick)
    (bar : Bar) (hmem : bar ∈ runAggregator interval ticks) :
    bar.low ≤ min bar.open_ bar.close ∧
    max bar.open_ bar.close ≤ bar.high ∧ 1 ≤ bar.volume := by
  have h0 : AggInv ⟨interval, none⟩ := by
    intro b hb
    simp at hb
  obtain ⟨h1, h2⟩ := feedAll_inv ticks ⟨interval, none⟩ h0
  unfold runAggregator at hmem
  simp only [List.mem_append] at hmem
  rcases hmem with hm | hm
  · exact h2 bar hm
  · rcases ho : (feedAll ⟨interval, none⟩ ticks).1.flush.2 with _ | b2
    · rw [ho] at hm
      simp at hm
    · rw [ho] at hm
      simp at hm
      rw [hm]
      exact flush_inv _ h1 b2 ho

/-- C8 witness: one tick with bid 1 and ask 3 (mid 2) in a 60-second bucket
yields the single bar `⟨0, 60, 2, 2, 2, 2, 1⟩`, which satisfies the
invariants. -/
theorem aggregator_bar_invariants_witness :
    (⟨0, 60, 2, 2, 2, 2, 1⟩ : Bar) ∈ runAggregator 60 [⟨10, 1, 3⟩] ∧
    ((⟨0, 60, 2, 2, 2, 2, 1⟩ : Bar).low ≤
        min (⟨0, 60, 2, 2, 2, 2, 1⟩ : Bar).open_
          (⟨0, 60, 2, 2, 2, 2, 1⟩ : Bar).close ∧
      max (⟨0, 60, 2, 2, 2, 2, 1⟩ : Bar).open_
          (⟨0, 60, 2, 2, 2, 2, 1⟩ : Bar).close ≤
        (⟨0, 60, 2, 2, 2, 2, 1⟩ : Bar).high ∧
      1 ≤ (⟨0, 60, 2, 2, 2, 2, 1⟩ : Bar).volume) := by
  have hmem : (⟨0, 60, 2, 2, 2, 2, 1⟩ : Bar) ∈ runAggregator 60 [⟨10, 1, 3⟩] := by
    norm_num [runAggregator, feedAll, BarAggregator.feed, BarAggregator.flush,
      bucketId, Bucket.init, Tick.mid, Bucket.toBar]
  exact ⟨hmem,
    aggregator_bar_invariants 60 [⟨10, 1, 3⟩] ⟨0, 60, 2, 2, 2, 2, 1⟩ hmem⟩

theorem agg_eta (a : BarAggregator) (b : Bucket) (hc : a.current = some b) :
    ({ a with current := some b } : BarAggregator) = a := by
  cases a with
  | mk i c =>
    simp only at hc
    rw [hc]

theorem feed_same_bucket (a : BarAggregator) (t : Tick) (b : Bucket)
    (hc : a.current = some b)
    (hid : bucketId a.interval t.timestamp = b.bucket_id) :
    a.feed t = ({ a with current := some (b.update t.mid) }, none) := by
  simp [BarAggregator.feed, hc, hid]

theorem feedAll_same_bucket (ts : List Tick) (a : BarAggregator) (b : Bucket)
    (hc : a.current = some b)
    (hids : ∀ u ∈ ts, bucketId a.interval u.timestamp = b.bucket_id) :
    feedAll a ts =
      ({ a with current := some (ts.foldl (fun x u => x.update u.mid) b) },
       []) := by
  induction ts generalizing a b with
  | nil =>
    rw [List.foldl_nil, agg_eta a b hc]
    rfl
  | cons t ts ih =>
    have hidt : bucketId a.interval t.timestamp = b.bucket_id :=
      hids t (List.mem_cons_self _ _)
    have hf := feed_same_bucket a t b hc hidt
    have hrec := ih ({ a with current := some (b.update t.mid) })
      (b.update t.mid) rfl
      (fun u hu => hids u (List.mem_cons_of_mem _ hu))
    simp only [feedAll, hf, hrec, Option.toList, List.nil_append,
      List.foldl_cons]

theorem foldl_update_bucket_id (ts : List Tick) (b : Bucket) :
    (ts.foldl (fun x u => x.update u.mid) b).bucket_id = b.bucket_id := by
  induction ts generalizing b with
  | nil => rfl
  | cons t ts ih =>
    rw [List.foldl_cons]
    exact ih (b.update t.mid)

theorem foldl_update_open (ts : List Tick) (b : Bucket) :
    (ts.foldl (fun x u => x.update u.mid) b).open_ = b.open_ := by
  induction ts generalizing b with
  | nil => rfl
  | cons t ts ih =>
    rw [List.foldl_cons]
    exact ih (b.update t.mid)

theorem foldl_update_high (ts : List Tick) (b : Bucket) :
    (ts.foldl (fun x u => x.update u.mid) b).high =
      ts.foldl (fun h u => max h u.mid) b.high := by
  induction ts generalizing b with
  | nil => rfl
  | cons t ts ih =>
    rw [List.foldl_cons, List.foldl_cons]
    exact ih (b.update t.mid)

theorem foldl_update_low (ts : List Tick) (b : Bucket) :
    (ts.foldl (fun x u => x.update u.mid) b).low =
      ts.foldl (fun l u => min l u.mid) b.low := by
  induction ts generalizing b with
  | nil => rfl
  | cons t ts ih =>
    rw [List.foldl_cons, List.foldl_cons]
    exact ih (b.update t.mid)

theorem foldl_update_close (ts : List Tick) (b : Bucket) :
    (ts.foldl (fun x u => x.update u.mid) b).close =
      ts.foldl (fun _ u => u.mid) b.close := by
  induction ts generalizing b with
  | nil => rfl
  | cons t ts ih =>
    rw [List.foldl_cons, List.foldl_cons]
    exact ih (b.update t.mid)

theorem foldl_update_volume (ts : List Tick) (b : Bucket) :
    (ts.foldl (fun x u => x.update u.mid) b).volume =
      b.volume + ts.length := by
  induction ts generalizing b with
  | nil => rfl
  | cons t ts ih =>
    rw [List.foldl_cons, ih (b.update t.mid)]
    simp [Bucket.update]
    omega

/-- C6: feeding a bucket's tick sequence (first tick `t`, then `ts`, all in
`t`'s bucket) and flushing yields exactly one bar whose open is the first
tick's mid, whose close is the latest tick's mid, whose high/low are the
running extrema of the mids, and whose volume counts the ticks. -/
theorem bucket_ohlc_from_mid (interval : Nat) (t : Tick) (ts : List Tick)
    (hids : ∀ u ∈ ts,
      bucketId interval u.timestamp = bucketId interval t.timestamp) :
    runAggregator interval (t :: ts) =
      [{ interval_start := bucketId interval t.timestamp * interval
         interval_end := (bucketId interval t.timestamp + 1) * interval
         open_ := t.mid
         high := ts.foldl (fun h u => max h u.mid) t.mid
         low := ts.foldl (fun l u => min l u.mid) t.mid
         close := ts.foldl (fun _ u => u.mid) t.mid
         volume := 1 + ts.length }] := by
  have hfeed : (⟨interval, none⟩ : BarAggregator).feed t =
      (⟨interval, some (Bucket.init (bucketId interval t.timestamp) t.mid)⟩,
       none) := rfl
  have hfa := feedAll_same_bucket ts
    ⟨interval, some (Bucket.init (bucketId interval t.timestamp) t.mid)⟩
    (Bucket.init (bucketId interval t.timestamp) t.mid) rfl hids
  have hvol : (ts.foldl (fun x u => x.update u.mid)
      (Bucket.init (bucketId interval t.timestamp) t.mid)).volume =
      1 + ts.length := foldl_update_volume ts _
  have hv : 0 < (ts.foldl (fun x u => x.update u.mid)
      (Bucket.init (bucketId interval t.timestamp) t.mid)).volume := by
    rw [hvol]
    omega
  simp only [runAggregator, feedAll, hfeed, hfa, Option.toList,
    List.nil_append, BarAggregator.flush, hv, if_pos, List.append_nil]
  rw [List.cons.injEq]
  refine ⟨?_, rfl⟩
  rw [Bar.mk.injEq]
  simp only [Bucket.toBar, foldl_update_bucket_id, foldl_update_open,
    foldl_update_high, foldl_update_low, foldl_update_close, hvol]
  simp [Bucket.init]

/-- C6 witness: two ticks with mids 2 and 4 in the same 900-second bucket
yield one bar with open 2, close 4, and extrema as running max/min of mids. -/
theorem bucket_ohlc_from_mid_witness :
    (∀ u ∈ [(⟨10, 3, 5⟩ : Tick)],
      bucketId 900 u.timestamp = bucketId 900 (⟨0, 1, 3⟩ : Tick).timestamp) ∧
    runAggregator 900 [⟨0, 1, 3⟩, ⟨10, 3, 5⟩] =
      [{ interval_start := bucketId 900 (⟨0, 1, 3⟩ : Tick).timestamp * 900
         interval_end := (bucketId 900 (⟨0, 1, 3⟩ : Tick).timestamp + 1) * 900
         open_ := (⟨0, 1, 3⟩ : Tick).mid
         high := [(⟨10, 3, 5⟩ : Tick)].foldl (fun h u => max h u.mid)
           (⟨0, 1, 3⟩ : Tick).mid
         low := [(⟨10, 3, 5⟩ : Tick)].foldl (fun l u => min l u.mid)
           (⟨0, 1, 3⟩ : Tick).mid
         close := [(⟨10, 3, 5⟩ : Tick)].foldl (fun _ u => u.mid)
           (⟨0, 1, 3⟩ : Tick).mid
         volume := 1 + [(⟨10, 3, 5⟩ : Tick)].length }] :=
  ⟨by decide,
   bucket_ohlc_from_mid 900 ⟨0, 1, 3⟩ [⟨10, 3, 5⟩] (by decide)⟩

theorem observe_same_session (sessionLen : Nat) (st : CoreState)
    (a : SessionAcc) (bar : Bar) (hacc : st.acc = some a)
    (hs : sessionOf sessionLen bar.interval_start = a.session_date) :
    observe sessionLen st bar =
      { st with acc := some ⟨a.session_date, max a.high bar.high, min a.low bar.low⟩ } := by
  simp [observe, hacc, hs]

theorem evaluate_taken (st : CoreState) (bar : Bar)
    (h : st.engine = EngineState.LevelTaken) :
    evaluate st bar = (st, ⟨SignalKind.NONE, bar.close⟩) := by
  cases hlv : st.level with
  | none => simp [evaluate, hlv]
  | some lv => simp [evaluate, hlv, h]

theorem evaluate_none_frame (st : CoreState) (bar : Bar)
    (h : (evaluate st bar).2.kind = SignalKind.NONE) :
    (evaluate st bar).1 = st := by
  cases hlv : st.level with
  | none => simp [evaluate, hlv]
  | some lv =>
    by_cases hg : st.engine = EngineState.LevelTaken ∨ st.position_open = true
    · simp [evaluate, hlv, hg]
    · by_cases h1 : lv.high < bar.close
      · exfalso
        simp [evaluate, hlv, hg, h1] at h
      · by_cases h2 : bar.close < lv.low
        · exfalso
          simp [evaluate, hlv, hg, h1, h2] at h
        · simp [evaluate, hlv, hg, h1, h2]

theorem evaluate_entry_taken (st : CoreState) (bar : Bar)
    (h : (evaluate st bar).2.kind ≠ SignalKind.NONE) :
    (evaluate st bar).1.engine = EngineState.LevelTaken := by
  cases hlv : st.level with
  | none =>
    exfalso
    apply h
    simp [evaluate, hlv]
  | some lv =>
    by_cases hg : st.engine = EngineState.LevelTaken ∨ st.position_open = true
    · exfalso
      apply h
      simp [evaluate, hlv, hg]
    · by_cases h1 : lv.high < bar.close
      · simp [evaluate, hlv, hg, h1]
      · by_cases h2 : bar.close < lv.low
        · simp [evaluate, hlv, hg, h1, h2]
        · exfalso
          apply h
          simp [evaluate, hlv, hg, h1, h2]

theorem evaluate_acc (st : CoreState) (bar : Bar) :
    (evaluate st bar).1.acc = st.acc := by
  cases hlv : st.level with
  | none => simp [evaluate, hlv]
  | some lv =>
    by_cases hg : st.engine = EngineState.LevelTaken ∨ st.position_open = true
    · simp [evaluate, hlv, hg]
    · by_cases h1 : lv.high < bar.close
      · simp [evaluate, hlv, hg, h1]
      · by_cases h2 : bar.close < lv.low
        · simp [evaluate, hlv, hg, h1, h2]
        · simp [evaluate, hlv, hg, h1, h2]

theorem runBars_taken (sessionLen : Nat) (bars : List Bar) (st : CoreState)
    (a : SessionAcc) (hacc : st.acc = some a)
    (heng : st.engine = EngineState.LevelTaken)
    (hs : ∀ b ∈ bars, sessionOf sessionLen b.interval_start = a.session_date) :
    (∀ sg ∈ (runBars sessionLen st bars).2, sg.kind = SignalKind.NONE) ∧
    (runBars sessionLen st bars).1.engine = EngineState.LevelTaken := by
  induction bars generalizing st a with
  | nil =>
    refine ⟨?_, heng⟩
    intro sg hsg
    simp [runBars] at hsg
  | cons b bs ih =>
    have hsb := hs b (List.mem_cons_self _ _)
    have hobs := observe_same_session sessionLen st a b hacc hsb
    have heng1 : (observe sessionLen st b).engine = EngineState.LevelTaken := by
      rw [hobs]
      exact heng
    have hacc1 : (observe sessionLen st b).acc =
        some ⟨a.session_date, max a.high b.high, min a.low b.low⟩ := by
      rw [hobs]
    have hev := evaluate_taken (observe sessionLen st b) b heng1
    have hstep : onBarStep sessionLen st b =
        (observe sessionLen st b, ⟨SignalKind.NONE, b.close⟩) := hev
    obtain ⟨ih1, ih2⟩ := ih (observe sessionLen st b)
      ⟨a.session_date, max a.high b.high, min a.low b.low⟩ hacc1 heng1
      (fun b2 hb2 => hs b2 (List.mem_cons_of_mem _ hb2))
    constructor
    · intro sg hsg
      simp only [runBars, hstep] at hsg
      rcases List.mem_cons.mp hsg with hsg | hsg
      · rw [hsg]
      · exact ih1 sg hsg
    · simp only [runBars, hstep]
      exact ih2

theorem runBars_count (sessionLen : Nat) (bars : List Bar) (st : CoreState)
    (a : SessionAcc) (hacc : st.acc = some a)
    (hs : ∀ b ∈ bars, sessionOf sessionLen b.interval_start = a.session_date) :
    (runBars sessionLen st bars).2.countP BreakoutSignal.isEntry ≤ 1 := by
  induction bars generalizing st a with
  | nil => simp [runBars]
  | cons b bs ih =>
    have hsb := hs b (List.mem_cons_self _ _)
    have hobs := observe_same_session sessionLen st a b hacc hsb
    have hacc1 : (observe sessionLen st b).acc =
        some ⟨a.session_date, max a.high b.high, min a.low b.low⟩ := by
      rw [hobs]
    have hacc2 : (onBarStep sessionLen st b).1.acc =
        some ⟨a.session_date, max a.high b.high, min a.low b.low⟩ := by
      rw [onBarStep, evaluate_acc]
      exact hacc1
    by_cases hk : (onBarStep sessionLen st b).2.kind = SignalKind.NONE
    · have hcount := ih (onBarStep sessionLen st b).1
        ⟨a.session_date, max a.high b.high, min a.low b.low⟩ hacc2
        (fun b2 hb2 => hs b2 (List.mem_cons_of_mem _ hb2))
      simp only [runBars, List.countP_cons]
      have hke : BreakoutSignal.isEntry (onBarStep sessionLen st b).2 = false := by
        simp [BreakoutSignal.isEntry, hk]
      rw [hke]
      simpa using hcount
    · have htk : (onBarStep sessionLen st b).1.engine =
          EngineState.LevelTaken := evaluate_entry_taken _ _ hk
      obtain ⟨hall, _⟩ := runBars_taken sessionLen bs (onBarStep sessionLen st b).1
        ⟨a.session_date, max a.high b.high, min a.low b.low⟩ hacc2 htk
        (fun b2 hb2 => hs b2 (List.mem_cons_of_mem _ hb2))
      have hzero : (runBars sessionLen (onBarStep sessionLen st b).1 bs).2.countP
          BreakoutSignal.isEntry = 0 := by
        rw [List.countP_eq_zero]
        intro sg hsg
        simp [BreakoutSignal.isEntry, hall sg hsg]
      simp only [runBars, List.countP_cons, hzero]
      split <;> omega

/-- C3: within a single session (all bars mapping to the accumulator's
session), the engine emits at most one non-NONE signal; once the state is
`LevelTaken`, every bar of that session yields NONE; and processing a
same-session bar never resets `LevelTaken` to `Idle` — only a rollover does. -/
theorem at_most_one_signal_per_session (sessionLen : Nat) (st : CoreState)
    (a : SessionAcc) (bars : List Bar) (hacc : st.acc = some a)
    (hs : ∀ b ∈ bars, sessionOf sessionLen b.interval_start = a.session_date) :
    (runBars sessionLen st bars).2.countP BreakoutSignal.isEntry ≤ 1 ∧
    (st.engine = EngineState.LevelTaken →
      ∀ sg ∈ (runBars sessionLen st bars).2, sg.kind = SignalKind.NONE) ∧
    (∀ b, st.engine = EngineState.LevelTaken →
      sessionOf sessionLen b.interval_start = a.session_date →
      (onBarStep sessionLen st b).1.engine = EngineState.LevelTaken) := by
  refine ⟨runBars_count sessionLen bars st a hacc hs,
    fun h => (runBars_taken sessionLen bars st a hacc h hs).1, ?_⟩
  intro b heng hsb
  have hobs := observe_same_session sessionLen st a b hacc hsb
  have heng1 : (observe sessionLen st b).engine = EngineState.LevelTaken := by
    rw [hobs]
    exact heng
  rw [onBarStep, evaluate_taken _ _ heng1]
  exact heng1

/-- The concrete session state of the C3 witness: prior-day level
`{high 105, low 100}`, accumulator in session 1, engine Idle, no position. -/
def c3State : CoreState :=
  ⟨some ⟨0, 105, 100⟩, some ⟨1, 102, 101⟩, EngineState.Idle, false⟩

/-- The concrete session-1 bars of the C3 witness, closing at
101, 106, 107, 99. -/
def c3Bars : List Bar :=
  [⟨86400, 87300, 101, 101, 101, 101, 1⟩,
   ⟨87300, 88200, 106, 106, 106, 106, 1⟩,
   ⟨88200, 89100, 107, 107, 107, 107, 1⟩,
   ⟨89100, 90000, 99, 99, 99, 99, 1⟩]

/-- C3 witness: over the session-1 bar sequence with closes
101, 106, 107, 99 the engine emits at most one entry signal, and the
`LevelTaken` guarantees hold. -/
theorem at_most_one_signal_per_session_witness :
    c3State.acc = some ⟨1, 102, 101⟩ ∧
    (∀ b ∈ c3Bars,
      sessionOf 86400 b.interval_start =
        (⟨1, 102, 101⟩ : SessionAcc).session_date) ∧
    ((runBars 86400 c3State c3Bars).2.countP BreakoutSignal.isEntry ≤ 1 ∧
    (c3State.engine = EngineState.LevelTaken →
      ∀ sg ∈ (runBars 86400 c3State c3Bars).2,
        sg.kind = SignalKind.NONE) ∧
    (∀ b, c3State.engine = EngineState.LevelTaken →
      sessionOf 86400 b.interval_start =
        (⟨1, 102, 101⟩ : SessionAcc).session_date →
      (onBarStep 86400 c3State b).1.engine = EngineState.LevelTaken)) :=
  ⟨rfl, by decide,
   at_most_one_signal_per_session 86400 c3State ⟨1, 102, 101⟩ c3Bars rfl
     (by decide)⟩
